import Mathlib

/-!
Verification of the mesos-ssh fan-out command executor.

This file gives a shallow embedding, in Lean, of the core of the program:
the per-host output channel (`RemoteIO` in `io.go`, here `IOMessage`
producers), the batched and interleaved collectors (`io.go`), the per-host
session driver (`SSHSession` in the ssh source file), the password-prompt
scanner (`writePass`), the file-staging wire protocol (`sendFiles`), and the
semaphore-based scheduler in `main.go`.  External effects (network reads,
remote command results, file system answers) are passed in as explicit
oracle values, so every definition is an executable function of its inputs.
-/

namespace MesosSSH

/-! ## Messages and the RemoteIO producers (io.go) -/

/-- Embeds Go's `IOMessage`: a payload and a stream tag.  Payloads are kept
as `List Char` (Go strings are byte strings; the claims only exercise text).
Stream tags follow the source: 1 = stdout, 2 = stderr, -1 = exit notice. -/
structure IOMessage where
  data : List Char
  stream : Int
deriving DecidableEq, Repr

/-- `RemoteIO.Stdout`: wraps a payload as a stream-1 message. -/
def stdoutMessage (p : List Char) : IOMessage := ⟨p, 1⟩

/-- `RemoteIO.Stderr`: wraps a payload as a stream-2 message. -/
def stderrMessage (p : List Char) : IOMessage := ⟨p, 2⟩

/-- `RemoteIO.Exit`: the synthetic exit-notice message, stream -1,
with the formatted text from the source. -/
def exitMessage (code : Int) : IOMessage :=
  ⟨("Exited with code: " ++ toString code ++ "\n").toList, -1⟩

/-! ## The relay writers (io.go: stdoutWriter / stderrWriter) -/

/-- Result of one `Write` call on a relay writer: the event enqueued on the
RemoteIO channel, the byte count returned, and the error returned. -/
structure WriteResult where
  event : IOMessage
  n : Nat
  err : Option String
deriving DecidableEq, Repr

/-- `stdoutWriter.Write`: enqueues the payload as a stdout event and
returns `(len(p), nil)`. -/
def stdoutWriterWrite (p : List Char) : WriteResult :=
  ⟨stdoutMessage p, p.length, none⟩

/-- `stderrWriter.Write`: enqueues the payload as a stderr event and
returns `(len(p), nil)`. -/
def stderrWriterWrite (p : List Char) : WriteResult :=
  ⟨stderrMessage p, p.length, none⟩

/-- Why an `io.Copy` relay loop stopped. -/
inductive CopyStop
  | sourceEnd
  | writeFailed (e : String)
  | shortWrite
deriving DecidableEq, Repr

/-- `io.Copy(&stdoutWriter{...}, src)`: reads a sequence of chunks from the
source and writes each through the relay writer; stops early on a write
error or short write, otherwise stops when the source ends. -/
def ioCopyOut : List (List Char) → List IOMessage × CopyStop
  | [] => ([], .sourceEnd)
  | p :: rest =>
    let w := stdoutWriterWrite p
    match w.err with
    | some e => ([w.event], .writeFailed e)
    | none =>
      if w.n < p.length then ([w.event], .shortWrite)
      else
        let r := ioCopyOut rest
        (w.event :: r.1, r.2)

/-- Same relay loop through the stderr writer. -/
def ioCopyErr : List (List Char) → List IOMessage × CopyStop
  | [] => ([], .sourceEnd)
  | p :: rest =>
    let w := stderrWriterWrite p
    match w.err with
    | some e => ([w.event], .writeFailed e)
    | none =>
      if w.n < p.length then ([w.event], .shortWrite)
      else
        let r := ioCopyErr rest
        (w.event :: r.1, r.2)

/-! ## The session command driver (SSHSession.runCommand) -/

/-- The error value `session.Run` can produce in the Go ssh library:
either an `*ssh.ExitError` carrying a numeric status, or any other
(connection / protocol) error. -/
inductive RunError
  | exitErr (status : Nat)
  | plain (msg : String)
deriving DecidableEq, Repr

/-- Oracle for the externally-determined results inside `runCommand`:
each fallible library call either succeeds (`none`) or fails with an
error string, and `session.Run` finishes with `runResult`
(`none` = clean zero exit). -/
structure CmdOracle where
  forwardAgentErr : Option String
  newSessionErr : Option String
  requestFwdErr : Option String
  ptyErr : Option String
  stdoutPipeErr : Option String
  stderrPipeErr : Option String
  stdinPipeErr : Option String
  runResult : Option RunError
deriving DecidableEq, Repr

/-- `SSHSession.runCommand`, with the remote interactions resolved by the
oracle.  Returns the synthetic messages enqueued on the RemoteIO (the exit
notice, when one is sent) together with the error returned to the caller.
Mirrors the source's early returns and its final three-way classification
of `cmdErr`. -/
def runCommand (elev pty fwd : Bool) (o : CmdOracle) :
    List IOMessage × Option RunError :=
  match (if fwd then o.forwardAgentErr else none) with
  | some e => ([], some (.plain e))
  | none =>
  match o.newSessionErr with
  | some e => ([], some (.plain e))
  | none =>
  match (if fwd then o.requestFwdErr else none) with
  | some e => ([], some (.plain e))
  | none =>
  match (if elev || pty then o.ptyErr else none) with
  | some e => ([], some (.plain e))
  | none =>
  match o.stdoutPipeErr with
  | some e => ([], some (.plain e))
  | none =>
  match o.stderrPipeErr with
  | some e => ([], some (.plain e))
  | none =>
  match (if elev then o.stdinPipeErr else none) with
  | some e => ([], some (.plain e))
  | none =>
  match o.runResult with
  | none => ([exitMessage 0], none)
  | some (.exitErr s) => ([exitMessage (s : Int)], none)
  | some (.plain m) => ([], some (.plain m))

/-- All the setup steps of `runCommand` that run before the command is
invoked succeed (only the steps actually taken for the given flags). -/
def setupOk (elev pty fwd : Bool) (o : CmdOracle) : Prop :=
  (fwd = true → o.forwardAgentErr = none ∧ o.requestFwdErr = none) ∧
  o.newSessionErr = none ∧
  ((elev || pty) = true → o.ptyErr = none) ∧
  o.stdoutPipeErr = none ∧ o.stderrPipeErr = none ∧
  (elev = true → o.stdinPipeErr = none)

/-! ## The password-prompt scanner (SSHSession.writePass) -/

/-- The fixed prompt marker scanned for by `writePass`. -/
def sudoMarker : List Char := "[sudo] password for ".toList

/-- `bytes.Contains`: the needle occurs as a contiguous sub-list of the
haystack. -/
def hasSub (hay nee : List Char) : Bool :=
  (List.range (hay.length + 1)).any fun i => nee.isPrefixOf (hay.drop i)

/-- Observable behaviour of one `writePass` call. -/
structure ScanResult where
  stdinWrites : List (List Char)
  events : List (List Char)
  closed : Bool
  scanned : Nat
deriving DecidableEq, Repr

/-- The scan loop of `writePass`.  `reads` is the sequence of chunks
`stdout.Read` delivers (each at most 32 bytes, the size of `sect`); the
list ending stands for the read returning an error.  `pwRes` is what
`auth.getPassword()` answers if it is consulted.  Each chunk is appended to
the accumulated buffer and passed through to the RemoteIO; on a marker
match the password and a carriage return are written to stdin and scanning
stops; once the buffer exceeds 64 bytes scanning stops without a write.
After the loop breaks, stdin is closed and the remaining chunks are copied
through unscanned (on a read error the function returns at once instead).
-/
def scanLoop (pwRes : Option (List Char)) (buf : List Char) :
    List (List Char) → ScanResult
  | [] => ⟨[], [], false, 0⟩
  | c :: rest =>
    let buf2 := buf ++ c
    if hasSub buf2 sudoMarker then
      match pwRes with
      | some pw => ⟨[pw, ['\r']], c :: rest, true, 1⟩
      | none => ⟨[], c :: rest, true, 1⟩
    else if buf2.length > 64 then
      ⟨[], c :: rest, true, 1⟩
    else
      let r := scanLoop pwRes buf2 rest
      ⟨r.stdinWrites, c :: r.events, r.closed, r.scanned + 1⟩

/-- `SSHSession.writePass`, starting from an empty buffer. -/
def writePass (pwRes : Option (List Char)) (reads : List (List Char)) :
    ScanResult :=
  scanLoop pwRes [] reads

/-- The number of chunks the scan loop consumes when no marker ever
matches: it keeps reading while the accumulated length stays at or below
64 bytes. -/
def specScanCount (acc : Nat) : List (List Char) → Nat
  | [] => 0
  | c :: rest =>
    if acc + c.length > 64 then 1
    else 1 + specScanCount (acc + c.length) rest

/-! ## Session Run with file staging (SSHSession.Run) -/

/-- Oracle for the remote interactions of `SSHSession.Run`: the result of
`mktemp -d`, of the file transfer, of the cleanup `rm -rf`, and the
`runCommand` oracle. -/
structure RunOracle where
  cmd : CmdOracle
  mktempRes : Except String String
  sendFilesRes : Option String
  deltempRes : Option String
deriving Repr

/-- Observable behaviour of one `SSHSession.Run` call. -/
structure RunTrace where
  invoked : Bool
  delAttempted : Bool
  delResult : Option String
  ret : Option RunError
deriving DecidableEq, Repr

/-- `SSHSession.Run`: with a non-empty file list it creates a remote temp
directory, stages the files, and only then runs the command; the deferred
`deltemp` runs whenever `mktemp` succeeded, and its result is only logged,
never merged into the returned error. -/
def sessionRun (elev pty fwd : Bool) (files : List String) (o : RunOracle) :
    RunTrace :=
  if files.length > 0 then
    match o.mktempRes with
    | .error e => ⟨false, false, none, some (.plain e)⟩
    | .ok _dir =>
      match o.sendFilesRes with
      | some e => ⟨false, true, o.deltempRes, some (.plain e)⟩
      | none => ⟨true, true, o.deltempRes, (runCommand elev pty fwd o.cmd).2⟩
  else
    ⟨true, false, none, (runCommand elev pty fwd o.cmd).2⟩

/-! ## File staging wire format (SSHSession.sendFiles) -/

/-- One file handed to `sendFiles`: its local path, the permission bits
reported by `info.Mode().Perm()` (at most `0o777`), its raw bytes
(`info.Size()` equals their count), and oracles for the `os.Open` and
`Stat` calls. -/
structure StagedFile where
  name : String
  perm : Nat
  content : List Nat
  openErr : Option String
  statErr : Option String
deriving DecidableEq, Repr

/-- Go `path.Base`: strip trailing slashes, then keep everything after the
last slash; empty path gives ".", all-slash path gives "/". -/
def baseName (s : String) : String :=
  if s = "" then "."
  else
    let cs := s.toList.reverse.dropWhile (fun c => c = '/')
    if cs = [] then "/"
    else String.mk ((cs.takeWhile (fun c => c ≠ '/')).reverse)

/-- The `%04o` verb: octal digits, zero-padded on the left to width 4. -/
def octal4 (n : Nat) : String :=
  let ds := Nat.toDigits 8 n
  String.mk (List.replicate (4 - ds.length) '0' ++ ds)

/-- A text string as the bytes written on the wire. -/
def strBytes (s : String) : List Nat := s.toList.map Char.toNat

/-- The header line `fmt.Fprintf(stdin, "C%04o %d %s\n", ...)` for one
file. -/
def fileHeader (f : StagedFile) : List Nat :=
  strBytes ("C" ++ octal4 f.perm ++ " " ++ toString f.content.length ++ " " ++
    baseName f.name ++ "\n")

/-- The sender goroutine of `sendFiles`: for each file in order, open and
stat it (aborting on failure), then write the header line, the raw bytes,
and a single NUL byte. -/
def sendLoop : List StagedFile → List Nat × Option String
  | [] => ([], none)
  | f :: rest =>
    match f.openErr with
    | some e => ([], some e)
    | none =>
      match f.statErr with
      | some e => ([], some e)
      | none =>
        let r := sendLoop rest
        (fileHeader f ++ f.content ++ [0] ++ r.1, r.2)

/-- Observable behaviour of the staging upload: the bytes written to the
remote copy sub-session's input, whether that input was closed, and the
send error if any. -/
structure SendResult where
  bytes : List Nat
  closed : Bool
  err : Option String
deriving DecidableEq, Repr

/-- `SSHSession.sendFiles` upload side: run the sender loop; the deferred
`stdin.Close()` always runs once the loop is over. -/
def sendFiles (files : List StagedFile) : SendResult :=
  let r := sendLoop files
  ⟨r.1, true, r.2⟩

/-- Modelled from the spec wording of the wire contract, for comparison
with `sendLoop`: per file, a header line `C`, the four-digit octal
permission bits, a space, the decimal byte length, a space, the file's
base name and a newline, then the raw file bytes, then a single NUL byte,
repeated per file in list order. -/
def specFileWire (f : StagedFile) : List Nat :=
  strBytes ("C" ++ octal4 f.perm ++ " " ++ toString f.content.length ++ " " ++
    baseName f.name ++ "\n") ++ f.content ++ [0]

/-- The whole spec-side wire stream: the per-file records concatenated in
list order. -/
def specWire (files : List StagedFile) : List Nat :=
  files.foldr (fun f acc => specFileWire f ++ acc) []

/-! ## Batched collector (io.go: RegularIOCollector) -/

/-- One consolidated record sent on the results channel. -/
structure IOResult where
  host : String
  msgs : List IOMessage
  result : Option String
deriving DecidableEq, Repr

/-- Everything one host's producer side delivers to its batched consumer:
the events before the done signal, the single done value, and the events
arriving during the grace phase, each tagged with the delay (in ms) since
the previous activity reset the timer. -/
structure HostTrace where
  host : String
  pre : List IOMessage
  result : Option String
  post : List (Nat × IOMessage)
deriving DecidableEq, Repr

/-- The grace deadline used by both collectors: 250 ms. -/
def graceDeadline : Nat := 250

/-- The second wait loop of `RegularIOCollector.process`: an event that
arrives before the timer fires is appended and resets the timer; the first
time the timer wins, the loop breaks and everything later is dropped. -/
def graceLoop : List (Nat × IOMessage) → List IOMessage
  | [] => []
  | (d, m) :: rest =>
    if d < graceDeadline then m :: graceLoop rest else []

/-- `RegularIOCollector.process` for one host: buffer events until the
done signal, drain the grace window, then emit the one consolidated
record. -/
def processTrace (t : HostTrace) : IOResult :=
  ⟨t.host, t.pre ++ graceLoop t.post, t.result⟩

/-- The collector's `count` after the scheduler has called `NewRemote`
once per host (`coll.count++` per call, starting from zero). -/
def registerAll (hosts : List String) : Nat :=
  hosts.foldl (fun c _ => c + 1) 0

/-- `RegularIOCollector.Read`: receive consolidated records from the
results channel until `count` of them have been drained. -/
def readDrain (count : Nat) (results : List IOResult) : List IOResult :=
  results.take count

/-- The per-host goroutine body in `main`: on a connect error, `Done(err)`
is signalled and the task returns; otherwise the single outcome of
`ssh.Run(cmd)` is signalled.  The list collects every value passed to
`remote.Done`. -/
def doneSignals (connectErr : Option String) (runRet : Option String) :
    List (Option String) :=
  match connectErr with
  | some e => [some e]
  | none => [runRet]

/-! ## Interleaved collector (io.go: interleavedProcessor) -/

/-- The mutable part of an `interleavedProcessor`: the current stream
marker and the line-assembly buffer. -/
structure ProcState where
  curStream : Int
  buf : List Char
deriving DecidableEq, Repr

/-- A processor starts with stream marker -1 and an empty buffer. -/
def initProc : ProcState := ⟨-1, []⟩

/-- Go `fmt.Sprintf("%03d", n)`: decimal, zero-padded to total width 3
(the sign occupies one position). -/
def fmt3 (n : Int) : List Char :=
  let ds := Nat.toDigits 10 n.natAbs
  if n < 0 then '-' :: (List.replicate (2 - ds.length) '0' ++ ds)
  else List.replicate (3 - ds.length) '0' ++ ds

/-- The stream tag chosen by `interleavedProcessor.send`. -/
def streamTag (s : Int) : List Char :=
  if s = 1 then "out".toList
  else if s = 2 then "err".toList
  else if s = -1 then "***".toList
  else fmt3 s

/-- The formatted line `send` puts on the shared channel:
`"<host> [<tag>]: <line>"`. -/
def sendLine (host : List Char) (cur : Int) (line : List Char) : List Char :=
  host ++ " [".toList ++ streamTag cur ++ "]: ".toList ++ line

/-- The newline-splitting loop inside `interleavedProcessor.handle`,
written with explicit fuel (each iteration consumes at least the newline
byte, so `data.length` steps always suffice).  Per newline found: if the
assembly buffer is non-empty the segment is appended to it and the buffer
is flushed as one line, otherwise the segment alone is sent; the trailing
remainder joins the buffer. -/
def lineLoopF (host : List Char) (cur : Int) :
    Nat → List Char → List Char → List (List Char) × List Char
  | 0, buf, data => ([], buf ++ data)
  | fuel + 1, buf, data =>
    match data.dropWhile (fun c => c ≠ '\n') with
    | [] => ([], buf ++ data)
    | _ :: rest =>
      let seg := data.takeWhile (fun c => c ≠ '\n')
      let emitted :=
        if buf.length > 0 then sendLine host cur (buf ++ seg)
        else sendLine host cur seg
      let r := lineLoopF host cur fuel [] rest
      (emitted :: r.1, r.2)

/-- The newline-splitting loop at adequate fuel. -/
def lineLoop (host : List Char) (cur : Int) (buf data : List Char) :
    List (List Char) × List Char :=
  lineLoopF host cur data.length buf data

/-- `interleavedProcessor.flush`: emit the assembly buffer as one line if
it is non-empty. -/
def flushLines (host : List Char) (st : ProcState) : List (List Char) :=
  if st.buf.length > 0 then [sendLine host st.curStream st.buf] else []

/-- `interleavedProcessor.handle`: on a stream switch, flush the partial
line under the old marker and switch; then split the payload on newlines.
Returns the lines emitted (in order) and the new processor state. -/
def handle (host : List Char) (st : ProcState) (msg : IOMessage) :
    List (List Char) × ProcState :=
  if msg.stream ≠ st.curStream then
    let fl := flushLines host st
    let r := lineLoop host msg.stream [] msg.data
    (fl ++ r.1, ⟨msg.stream, r.2⟩)
  else
    let r := lineLoop host st.curStream st.buf msg.data
    (r.1, ⟨st.curStream, r.2⟩)

/-- Feed a sequence of events through `handle`, collecting every emitted
line. -/
def handleAll (host : List Char) :
    ProcState → List IOMessage → List (List Char) × ProcState
  | st, [] => ([], st)
  | st, m :: ms =>
    let r := handle host st m
    let r2 := handleAll host r.2 ms
    (r.1 ++ r2.1, r2.2)

/-! ## The scheduler (main.go)

`main` creates one RemoteIO and one goroutine per host, primes a buffered
channel `sem` of capacity `K = flagParallel` with `K` tokens, and each
goroutine does `wg.Add(1)`, receives a token, connects and runs, signals
its single outcome via `remote.Done`, and in a deferred block sends the
token back and calls `wg.Done()`; `main` then runs `coll.Read()` (which
returns only after every host's done signal has been consumed) and
`wg.Wait()`.  We model this as a small-step transition system: one program
counter per task, plus the main routine's own phase. -/

/-- Program counter of one per-host goroutine. -/
inductive TaskPC
  | start
  | added
  | running
  | signaled
  | released
  | finished
deriving DecidableEq, Repr

/-- The task has passed its `remote.Done` call. -/
def TaskPC.signaledOrLater : TaskPC → Bool
  | .signaled | .released | .finished => true
  | _ => false

/-- The task currently holds an admission token (between its receive from
`sem` and its deferred send back); the session's Connected/Running window
lies inside this interval. -/
def TaskPC.holdsSlot : TaskPC → Bool
  | .running | .signaled => true
  | _ => false

/-- The task is counted by the scheduler's wait group (between `wg.Add(1)`
and `wg.Done()`). -/
def TaskPC.wgCounted : TaskPC → Bool
  | .added | .running | .signaled | .released => true
  | _ => false

/-- Phase of the main routine: priming the semaphore, blocked in
`coll.Read()`, blocked in `wg.Wait()`, or returned. -/
inductive MainPC
  | priming
  | reading
  | waiting
  | finished
deriving DecidableEq, Repr

/-- Global state of the scheduler model. -/
structure SchedState where
  primed : Nat
  tokens : Nat
  main : MainPC
  tasks : List TaskPC
deriving DecidableEq, Repr

/-- Number of tasks currently holding an admission token. -/
def countHolding (l : List TaskPC) : Nat :=
  l.countP fun t => t.holdsSlot

/-- Current wait-group counter. -/
def wgCount (l : List TaskPC) : Nat :=
  l.countP fun t => t.wgCounted

/-- One step of the scheduler model with parallelism limit `K`.
Task steps are free interleavings; the two main-routine returns carry the
synchronization the code provides: `coll.Read()` cannot return before
every host's done signal was produced, and `wg.Wait()` cannot return while
the wait-group counter is positive. -/
inductive SchedStep (K : Nat) : SchedState → SchedState → Prop
  | prime (p tok : Nat) (tasks : List TaskPC) : p < K →
      SchedStep K ⟨p, tok, .priming, tasks⟩ ⟨p + 1, tok + 1, .priming, tasks⟩
  | startRead (tok : Nat) (tasks : List TaskPC) :
      SchedStep K ⟨K, tok, .priming, tasks⟩ ⟨K, tok, .reading, tasks⟩
  | wgAdd (p tok : Nat) (m : MainPC) (pre post : List TaskPC) :
      SchedStep K ⟨p, tok, m, pre ++ .start :: post⟩
        ⟨p, tok, m, pre ++ .added :: post⟩
  | acquire (p tok : Nat) (m : MainPC) (pre post : List TaskPC) :
      SchedStep K ⟨p, tok + 1, m, pre ++ .added :: post⟩
        ⟨p, tok, m, pre ++ .running :: post⟩
  | signalDone (p tok : Nat) (m : MainPC) (pre post : List TaskPC) :
      SchedStep K ⟨p, tok, m, pre ++ .running :: post⟩
        ⟨p, tok, m, pre ++ .signaled :: post⟩
  | release (p tok : Nat) (m : MainPC) (pre post : List TaskPC) :
      SchedStep K ⟨p, tok, m, pre ++ .signaled :: post⟩
        ⟨p, tok + 1, m, pre ++ .released :: post⟩
  | wgDone (p tok : Nat) (m : MainPC) (pre post : List TaskPC) :
      SchedStep K ⟨p, tok, m, pre ++ .released :: post⟩
        ⟨p, tok, m, pre ++ .finished :: post⟩
  | readReturn (p tok : Nat) (tasks : List TaskPC) :
      (∀ t ∈ tasks, t.signaledOrLater = true) →
      SchedStep K ⟨p, tok, .reading, tasks⟩ ⟨p, tok, .waiting, tasks⟩
  | waitReturn (p tok : Nat) (tasks : List TaskPC) :
      wgCount tasks = 0 →
      SchedStep K ⟨p, tok, .waiting, tasks⟩ ⟨p, tok, .finished, tasks⟩

/-- Initial state for `N` hosts: nothing primed, no tokens, all task
goroutines spawned but not yet at their `wg.Add`. -/
def initState (N : Nat) : SchedState :=
  ⟨0, 0, .priming, List.replicate N .start⟩

/-- States the scheduler model can reach for `N` hosts and limit `K`. -/
def Reachable (K N : Nat) (s : SchedState) : Prop :=
  Relation.ReflTransGen (SchedStep K) (initState N) s

/-- The inductive invariant of the scheduler model. -/
def SchedInv (K : Nat) (s : SchedState) : Prop :=
  s.primed ≤ K ∧
  s.tokens + countHolding s.tasks = s.primed ∧
  (s.main ≠ .priming → s.primed = K) ∧
  ((s.main = .waiting ∨ s.main = .finished) →
    ∀ t ∈ s.tasks, t.signaledOrLater = true) ∧
  (s.main = .finished → ∀ t ∈ s.tasks, t = .finished)

/-! ## Concrete inputs used to exercise the model -/

/-- A command oracle in which every setup step succeeds and the command
exits cleanly. -/
def cleanOracle : CmdOracle :=
  ⟨none, none, none, none, none, none, none, none⟩

/-- A command oracle in which every setup step succeeds and the command
exits with status 3. -/
def exitOracle : CmdOracle :=
  ⟨none, none, none, none, none, none, none, some (.exitErr 3)⟩

/-- A stdout read sequence (three full 32-byte reads) whose first 64 bytes
are filler and whose third chunk starts with the sudo prompt marker, so
the marker occupies byte offsets 64..83 of the stream. -/
def c2reads : List (List Char) :=
  [List.replicate 32 'a', List.replicate 32 'a',
   sudoMarker ++ List.replicate 12 'x']

/-! # Theorems -/

/-- Helper: the scan loop's chunk count is always at least one on a
non-empty read list. -/
theorem specScanCount_pos (acc : Nat) (c : List Char)
    (rest : List (List Char)) : 1 ≤ specScanCount acc (c :: rest) := by
  unfold specScanCount
  split <;> omega

/-- Helper: `registerAll` counts one per host. -/
theorem registerAll_eq_length (hosts : List String) :
    registerAll hosts = hosts.length := by
  suffices hgen : ∀ (l : List String) (c : Nat),
      l.foldl (fun c _ => c + 1) c = c + l.length by
    simpa [registerAll] using hgen hosts 0
  intro l
  induction l with
  | nil => simp
  | cons x xs ih => intro c; simp [List.foldl_cons, ih]; omega

/-- Helper: the grace loop keeps every event whose delay beats the
deadline. -/
theorem graceLoop_keep (l : List (Nat × IOMessage))
    (h : ∀ x ∈ l, x.1 < graceDeadline) : graceLoop l = l.map Prod.snd := by
  induction l with
  | nil => rfl
  | cons x xs ih =>
    have hx := h x (List.mem_cons_self x xs)
    obtain ⟨d, m⟩ := x
    simp only [graceLoop, if_pos hx]
    rw [ih fun y hy => h y (List.mem_cons_of_mem _ hy)]
    rfl

/-- Helper: the grace loop drops everything from the first event that
loses the race with the timer. -/
theorem graceLoop_cut (pre : List (Nat × IOMessage)) (ev : Nat × IOMessage)
    (post : List (Nat × IOMessage)) (h1 : ∀ x ∈ pre, x.1 < graceDeadline)
    (h2 : graceDeadline ≤ ev.1) :
    graceLoop (pre ++ ev :: post) = pre.map Prod.snd := by
  induction pre with
  | nil =>
    obtain ⟨d, m⟩ := ev
    simp only [List.nil_append, graceLoop, List.map_nil]
    rw [if_neg (by simp at h2 ⊢; omega)]
  | cons x xs ih =>
    have hx := h1 x (List.mem_cons_self x xs)
    obtain ⟨d, m⟩ := x
    simp only [List.cons_append, graceLoop, if_pos hx, List.map_cons,
      List.append_eq]
    rw [ih fun y hy => h1 y (List.mem_cons_of_mem _ hy)]

/-- Claim C10: for every byte slice `p`, the stdout and stderr relay
writers return `(len(p), nil)` from `Write`, so an `io.Copy` relay through
them never stops on a write error or short write — it stops only because
the read side ends, having forwarded every chunk as an event. -/
theorem c10_relay_write_total :
    (∀ p : List Char,
      (stdoutWriterWrite p).n = p.length ∧ (stdoutWriterWrite p).err = none) ∧
    (∀ p : List Char,
      (stderrWriterWrite p).n = p.length ∧ (stderrWriterWrite p).err = none) ∧
    (∀ chunks : List (List Char),
      ioCopyOut chunks = (chunks.map stdoutMessage, .sourceEnd)) ∧
    (∀ chunks : List (List Char),
      ioCopyErr chunks = (chunks.map stderrMessage, .sourceEnd)) := by
  refine ⟨fun p => ⟨rfl, rfl⟩, fun p => ⟨rfl, rfl⟩, ?_, ?_⟩ <;>
  · intro chunks
    induction chunks with
    | nil => rfl
    | cons p rest ih =>
      simp [ioCopyOut, ioCopyErr, stdoutWriterWrite, stderrWriterWrite, ih]

/-- Claim C1: when every setup step of `runCommand` succeeds, a normal
command completion with any numeric status (zero via a nil `cmdErr`,
non-zero via an `*ssh.ExitError`) makes `runCommand` enqueue the synthetic
exit notice carrying that status and return nil, while an abnormal
termination makes it return that error and enqueue no exit notice. -/
theorem c1_outcome_classification (elev pty fwd : Bool) (o : CmdOracle)
    (h : setupOk elev pty fwd o) :
    (o.runResult = none →
      runCommand elev pty fwd o = ([exitMessage 0], none)) ∧
    (∀ s, o.runResult = some (.exitErr s) →
      runCommand elev pty fwd o = ([exitMessage (s : Int)], none)) ∧
    (∀ m, o.runResult = some (.plain m) →
      runCommand elev pty fwd o = ([], some (.plain m))) := by
  obtain ⟨h1, h2, h3, h4, h5, h6⟩ := h
  refine ⟨?_, ?_, ?_⟩ <;> intros <;>
    cases fwd <;> cases elev <;> cases pty <;>
    simp_all [runCommand]

/-- Witness for C1 at a concrete oracle: a clean setup with a non-zero
exit status 3 yields the exit notice for 3 and a nil error. -/
theorem c1_outcome_classification_witness :
    runCommand false false false exitOracle
      = ([exitMessage ((3 : Nat) : Int)], none) :=
  (c1_outcome_classification false false false exitOracle
    (by refine ⟨?_, rfl, ?_, rfl, rfl, ?_⟩ <;> simp [exitOracle])).2.1 3 rfl

/-- Claim C5: in the interleaved strategy, feeding `"ab"` then `"cd\n"` on
stdout emits exactly the one line `"<host> [out]: abcd"`: the partial line
held in the assembly buffer is prepended to the first newline-terminated
segment, never emitted separately. -/
theorem c5_line_atomicity (host : List Char) :
    (handleAll host initProc
      [⟨"ab".toList, 1⟩, ⟨"cd\n".toList, 1⟩]).1
      = [host ++ " [out]: abcd".toList] := by
  simp [handleAll, handle, initProc, lineLoop, lineLoopF, flushLines,
    sendLine, streamTag]

/-- Claim C6: in the interleaved strategy, an event whose stream differs
from the current marker first flushes the non-empty partially assembled
line under the old stream's tag, before any line of the new stream: the
first line emitted by `handle` is the flush line. -/
theorem c6_stream_switch_flush (host : List Char) (st : ProcState)
    (msg : IOMessage) (h1 : msg.stream ≠ st.curStream) (h2 : st.buf ≠ []) :
    (handle host st msg).1.head?
      = some (sendLine host st.curStream st.buf) := by
  unfold handle
  rw [if_pos h1]
  simp [flushLines, List.length_pos.mpr h2]

/-- Witness for C6: `"partial"` buffered on stdout, then a stderr event;
the flush line `"<host> [out]: partial"` comes first. -/
theorem c6_stream_switch_flush_witness :
    (handle "h".toList ⟨1, "partial".toList⟩ ⟨"x\n".toList, 2⟩).1.head?
      = some (sendLine "h".toList 1 "partial".toList) :=
  c6_stream_switch_flush "h".toList ⟨1, "partial".toList⟩ ⟨"x\n".toList, 2⟩
    (by decide) (by decide)

/-- Claim C4: every admitted host's task passes exactly one value to
`remote.Done` on every control path, and in the batched strategy `Read`
drains exactly as many consolidated records as hosts were registered via
`NewRemote`, each host contributing exactly one record. -/
theorem c4_exactly_one_outcome :
    (∀ (c : Option String) (r : Option String),
      (doneSignals c r).length = 1) ∧
    (∀ traces : List HostTrace,
      (readDrain (registerAll (traces.map HostTrace.host))
        (traces.map processTrace)).length = traces.length ∧
      (readDrain (registerAll (traces.map HostTrace.host))
        (traces.map processTrace)).map IOResult.host
        = traces.map HostTrace.host) := by
  constructor
  · intro c r
    cases c <;> rfl
  · intro traces
    have hdrain :
        readDrain (registerAll (traces.map HostTrace.host))
          (traces.map processTrace) = traces.map processTrace := by
      rw [registerAll_eq_length, readDrain, List.length_map,
        ← List.length_map traces processTrace, List.take_length]
    rw [hdrain]
    constructor
    · exact List.length_map traces processTrace
    · rw [List.map_map]
      rfl

/-- Claim C7: in the batched strategy, every event arriving in the grace
phase before the timer fires is appended to the transcript (each arrival
resetting the timer), and the first event that arrives after the window
closed — together with everything after it — is not retained. -/
theorem c7_grace_window (host : String) (preMsgs : List IOMessage)
    (res : Option String) (pre : List (Nat × IOMessage))
    (ev : Nat × IOMessage) (post : List (Nat × IOMessage))
    (h1 : ∀ x ∈ pre, x.1 < graceDeadline) (h2 : graceDeadline ≤ ev.1) :
    (∀ l : List (Nat × IOMessage), (∀ x ∈ l, x.1 < graceDeadline) →
      graceLoop l = l.map Prod.snd) ∧
    (processTrace ⟨host, preMsgs, res, pre ++ ev :: post⟩).msgs
      = preMsgs ++ pre.map Prod.snd := by
  refine ⟨graceLoop_keep, ?_⟩
  simp only [processTrace]
  rw [graceLoop_cut pre ev post h1 h2]

/-- Witness for C7: one in-window event is retained, the late event and
its successor are dropped. -/
theorem c7_grace_window_witness :
    (processTrace ⟨"h", [stdoutMessage "a".toList], none,
        [(10, stdoutMessage "b".toList)] ++
          (250, stdoutMessage "c".toList) ::
            [(5, stdoutMessage "d".toList)]⟩).msgs
      = [stdoutMessage "a".toList] ++
          [(10, stdoutMessage "b".toList)].map Prod.snd :=
  (c7_grace_window "h" [stdoutMessage "a".toList] none
    [(10, stdoutMessage "b".toList)] (250, stdoutMessage "c".toList)
    [(5, stdoutMessage "d".toList)] (by decide) (by decide)).2

/-- Claim C8: with a non-empty file list, a `mktemp` or transfer failure
makes `Run` return that error without ever invoking the remote command;
whenever the temporary directory was created, its recursive removal is
attempted after the run finishes or errors, and the removal's outcome is
never the returned error. -/
theorem c8_staging_errors (elev pty fwd : Bool) (files : List String)
    (o : RunOracle) (h : files ≠ []) :
    (∀ e, o.mktempRes = .error e →
      sessionRun elev pty fwd files o
        = ⟨false, false, none, some (.plain e)⟩) ∧
    (∀ d e, o.mktempRes = .ok d → o.sendFilesRes = some e →
      sessionRun elev pty fwd files o
        = ⟨false, true, o.deltempRes, some (.plain e)⟩) ∧
    (∀ d, o.mktempRes = .ok d →
      (sessionRun elev pty fwd files o).delAttempted = true) ∧
    (∀ x, (sessionRun elev pty fwd files { o with deltempRes := x }).ret
      = (sessionRun elev pty fwd files o).ret) := by
  have hlen : files.length > 0 := List.length_pos.mpr h
  refine ⟨?_, ?_, ?_, ?_⟩
  · intro e he
    simp [sessionRun, hlen, he]
  · intro d e hd he
    simp [sessionRun, hlen, hd, he]
  · intro d hd
    cases hs : o.sendFilesRes <;> simp [sessionRun, hlen, hd, hs]
  · intro x
    cases hd : o.mktempRes <;> cases hs : o.sendFilesRes <;>
      simp [sessionRun, hlen, hd, hs]

/-- Witness for C8 at a concrete failing `mktemp`: the run aborts with
that error and never invokes the command nor the cleanup. -/
theorem c8_staging_errors_witness :
    sessionRun false false false ["f"]
        ⟨cleanOracle, .error "boom", none, none⟩
      = ⟨false, false, none, some (.plain "boom")⟩ :=
  (c8_staging_errors false false false ["f"]
    ⟨cleanOracle, .error "boom", none, none⟩ (by simp)).1 "boom" rfl

/-- Claim C9: when every staged file opens and stats cleanly, the bytes
written to the remote-copy sub-session's input are exactly, per file in
list order: the header line `C<4-digit octal perm> <decimal length>
<basename>\n`, then the raw bytes, then one NUL; and the input stream is
closed after the last file. -/
theorem c9_wire_format (files : List StagedFile)
    (h : ∀ f ∈ files, f.openErr = none ∧ f.statErr = none) :
    sendFiles files = ⟨specWire files, true, none⟩ := by
  suffices hs : sendLoop files = (specWire files, none) by
    simp [sendFiles, hs]
  induction files with
  | nil => rfl
  | cons f rest ih =>
    obtain ⟨ho, hstat⟩ := h f (List.mem_cons_self f rest)
    have ih' := ih fun g hg => h g (List.mem_cons_of_mem _ hg)
    simp [sendLoop, ho, hstat, ih', specWire, specFileWire, fileHeader]

/-- Witness for C9 at a concrete two-file list. -/
theorem c9_wire_format_witness :
    sendFiles [⟨"dir/a.sh", 493, [104, 105], none, none⟩,
        ⟨"b", 420, [], none, none⟩]
      = ⟨specWire [⟨"dir/a.sh", 493, [104, 105], none, none⟩,
          ⟨"b", 420, [], none, none⟩], true, none⟩ :=
  c9_wire_format
    [⟨"dir/a.sh", 493, [104, 105], none, none⟩, ⟨"b", 420, [], none, none⟩]
    (by decide)

/-- Claim C2, counterexample: on a stdout stream whose first 64 bytes do
not contain the prompt marker but whose bytes 64..83 (arriving in the
third 32-byte read) do, the scanner still writes the credential — the
code checks the whole accumulated buffer after each read and only stops
once it holds more than 64 bytes, so the claim's "never writes" is false
as stated. -/
theorem c2_scan_counterexample :
    hasSub ((c2reads.flatten).take 64) sudoMarker = false ∧
    (writePass (some "pw".toList) c2reads).stdinWrites
      = ["pw".toList, ['\r']] := by
  decide

/-- Helper: when the marker never appears in the accumulated buffer at
any of the scan loop's checks, no stdin write happens, every chunk is
passed through, and the loop consumes exactly the chunks up to the first
one that pushes the buffer past 64 bytes. -/
theorem scanLoop_no_match (pwRes : Option (List Char)) :
    ∀ (reads : List (List Char)) (buf : List Char),
      (∀ k ≤ specScanCount buf.length reads,
        hasSub (buf ++ (reads.take k).flatten) sudoMarker = false) →
      (scanLoop pwRes buf reads).stdinWrites = [] ∧
      (scanLoop pwRes buf reads).events = reads ∧
      (scanLoop pwRes buf reads).scanned = specScanCount buf.length reads := by
  intro reads
  induction reads with
  | nil =>
    intro buf _
    exact ⟨rfl, rfl, rfl⟩
  | cons c rest ih =>
    intro buf H
    have h1 : hasSub (buf ++ c) sudoMarker = false := by
      have := H 1 (specScanCount_pos buf.length c rest)
      simpa using this
    by_cases hlen : 64 < buf.length + c.length
    · have hcnt : specScanCount buf.length (c :: rest) = 1 := by
        simp [specScanCount, hlen]
      have hsl : scanLoop pwRes buf (c :: rest) = ⟨[], c :: rest, true, 1⟩ := by
        simp [scanLoop, h1, List.length_append, hlen]
      rw [hsl, hcnt]
      exact ⟨rfl, rfl, rfl⟩
    · have hcnt : specScanCount buf.length (c :: rest)
          = 1 + specScanCount (buf.length + c.length) rest := by
        simp [specScanCount, hlen]
      have Hshift : ∀ k ≤ specScanCount (buf ++ c).length rest,
          hasSub ((buf ++ c) ++ (rest.take k).flatten) sudoMarker = false := by
        intro k hk
        rw [List.length_append] at hk
        have hk' : k + 1 ≤ specScanCount buf.length (c :: rest) := by
          rw [hcnt]; omega
        have := H (k + 1) hk'
        simpa [List.take_succ_cons, List.flatten_cons, List.append_assoc]
          using this
      have ih' := ih (buf ++ c) Hshift
      have hsl : scanLoop pwRes buf (c :: rest)
          = ⟨(scanLoop pwRes (buf ++ c) rest).stdinWrites,
             c :: (scanLoop pwRes (buf ++ c) rest).events,
             (scanLoop pwRes (buf ++ c) rest).closed,
             (scanLoop pwRes (buf ++ c) rest).scanned + 1⟩ := by
        simp [scanLoop, h1, List.length_append, hlen]
      rw [List.length_append] at ih'
      rw [hsl]
      exact ⟨ih'.1, by rw [ih'.2.1], by simp only [hcnt, ih'.2.2]; omega⟩

/-- Claim C2 (amended): when elevation is requested and the marker does
not appear in the scanner's accumulated stdout at any of its per-read
checks before scanning stops, the credential is never written, all stdout
is passed through unmodified, and scanning is abandoned as soon as more
than 64 bytes have been read without a match (so matching stops at the
first chunk that pushes the buffer past 64 bytes, not at exactly 64). -/
theorem c2_scan_amended (pwRes : Option (List Char))
    (reads : List (List Char))
    (H : ∀ k ≤ specScanCount 0 reads,
      hasSub ((reads.take k).flatten) sudoMarker = false) :
    (writePass pwRes reads).stdinWrites = [] ∧
    (writePass pwRes reads).events = reads ∧
    (writePass pwRes reads).scanned = specScanCount 0 reads := by
  have := scanLoop_no_match pwRes reads [] (by simpa using H)
  simpa [writePass] using this

/-- Witness for the amended C2 at a concrete promptless read sequence. -/
theorem c2_scan_amended_witness :
    (writePass none [['a'], ['b']]).stdinWrites = [] ∧
    (writePass none [['a'], ['b']]).events = [['a'], ['b']] ∧
    (writePass none [['a'], ['b']]).scanned = specScanCount 0 [['a'], ['b']] :=
  c2_scan_amended none [['a'], ['b']] (by decide)

/-- Helper: slot counts across a single-task update. -/
theorem countHolding_ctx (pre post : List TaskPC) (a : TaskPC) :
    countHolding (pre ++ a :: post)
      = countHolding pre + countHolding post
          + (if a.holdsSlot then 1 else 0) := by
  simp [countHolding, List.countP_append, List.countP_cons]
  split <;> omega

/-- Helper: the invariant survives every step of the scheduler model. -/
theorem sched_inv_step {K : Nat} {s t : SchedState} (hinv : SchedInv K s)
    (hstep : SchedStep K s t) : SchedInv K t := by
  obtain ⟨i1, i2, i3, i4, i5⟩ := hinv
  cases hstep with
  | prime p tok tasks hp =>
    dsimp only [SchedInv] at *
    refine ⟨by omega, by omega, ?_, ?_, ?_⟩
    · intro h; exact absurd rfl h
    · intro h; rcases h with h | h <;> simp at h
    · intro h; simp at h
  | startRead tok tasks =>
    dsimp only [SchedInv] at *
    refine ⟨le_refl K, i2, fun _ => rfl, ?_, ?_⟩
    · intro h; rcases h with h | h <;> simp at h
    · intro h; simp at h
  | wgAdd p tok m pre post =>
    dsimp only [SchedInv] at *
    have e1 := countHolding_ctx pre post .start
    have e2 := countHolding_ctx pre post .added
    simp [TaskPC.holdsSlot] at e1 e2
    refine ⟨i1, by omega, i3, ?_, ?_⟩
    · intro h
      exfalso
      have hx := i4 h .start (by simp)
      simp [TaskPC.signaledOrLater] at hx
    · intro h
      exfalso
      have hx := i5 h .start (by simp)
      simp at hx
  | acquire p tok m pre post =>
    dsimp only [SchedInv] at *
    have e1 := countHolding_ctx pre post .added
    have e2 := countHolding_ctx pre post .running
    simp [TaskPC.holdsSlot] at e1 e2
    refine ⟨i1, by omega, i3, ?_, ?_⟩
    · intro h
      exfalso
      have hx := i4 h .added (by simp)
      simp [TaskPC.signaledOrLater] at hx
    · intro h
      exfalso
      have hx := i5 h .added (by simp)
      simp at hx
  | signalDone p tok m pre post =>
    dsimp only [SchedInv] at *
    have e1 := countHolding_ctx pre post .running
    have e2 := countHolding_ctx pre post .signaled
    simp [TaskPC.holdsSlot] at e1 e2
    refine ⟨i1, by omega, i3, ?_, ?_⟩
    · intro h
      exfalso
      have hx := i4 h .running (by simp)
      simp [TaskPC.signaledOrLater] at hx
    · intro h
      exfalso
      have hx := i5 h .running (by simp)
      simp at hx
  | release p tok m pre post =>
    dsimp only [SchedInv] at *
    have e1 := countHolding_ctx pre post .signaled
    have e2 := countHolding_ctx pre post .released
    simp [TaskPC.holdsSlot] at e1 e2
    refine ⟨i1, by omega, i3, ?_, ?_⟩
    · intro h t ht
      rcases List.mem_append.mp ht with h1 | h2
      · exact i4 h t (List.mem_append_left _ h1)
      · rcases List.mem_cons.mp h2 with h3 | h4
        · rw [h3]; rfl
        · exact i4 h t (List.mem_append_right _ (List.mem_cons_of_mem _ h4))
    · intro h
      exfalso
      have hx := i5 h .signaled (by simp)
      simp at hx
  | wgDone p tok m pre post =>
    dsimp only [SchedInv] at *
    have e1 := countHolding_ctx pre post .released
    have e2 := countHolding_ctx pre post .finished
    simp [TaskPC.holdsSlot] at e1 e2
    refine ⟨i1, by omega, i3, ?_, ?_⟩
    · intro h t ht
      rcases List.mem_append.mp ht with h1 | h2
      · exact i4 h t (List.mem_append_left _ h1)
      · rcases List.mem_cons.mp h2 with h3 | h4
        · rw [h3]; rfl
        · exact i4 h t (List.mem_append_right _ (List.mem_cons_of_mem _ h4))
    · intro h
      exfalso
      have hx := i5 h .released (by simp)
      simp at hx
  | readReturn p tok tasks hall =>
    dsimp only [SchedInv] at *
    refine ⟨i1, i2, fun _ => i3 (by simp), fun _ => hall, ?_⟩
    · intro h; simp at h
  | waitReturn p tok tasks h0 =>
    dsimp only [SchedInv] at *
    refine ⟨i1, i2, fun _ => i3 (by simp), fun _ => i4 (Or.inl rfl), ?_⟩
    intro _ t ht
    have hsig := i4 (Or.inl rfl) t ht
    have hwg : ¬ t.wgCounted = true := by
      have hz := List.countP_eq_zero.mp h0
      exact hz t ht
    cases t <;> simp_all [TaskPC.signaledOrLater, TaskPC.wgCounted]

/-- Helper: every reachable state of the scheduler model satisfies the
invariant. -/
theorem reachable_inv {K N : Nat} {s : SchedState} (h : Reachable K N s) :
    SchedInv K s := by
  induction h with
  | refl =>
    refine ⟨Nat.zero_le K, ?_, ?_, ?_, ?_⟩
    · have hz : countHolding (List.replicate N .start) = 0 := by
        apply List.countP_eq_zero.mpr
        intro a ha
        rw [List.eq_of_mem_replicate ha]
        simp [TaskPC.holdsSlot]
      simp [initState, hz]
    · intro h; exact absurd rfl h
    · intro h; rcases h with h | h <;> simp [initState] at h
    · intro h; simp [initState] at h
  | tail _ hstep ih => exact sched_inv_step ih hstep

/-- Claim C3: for `N` hosts and concurrency limit `K ≤ N`, the scheduler
primes the admission semaphore with exactly `K` tokens (once priming ends,
exactly `K` were sent and no step mints more), in every reachable state at
most `K` tasks hold an admission slot — hence at most `K` sessions are
simultaneously Connected/Running — and the scheduler's `main` cannot
return before every per-host task has released its slot and finished. -/
theorem c3_admission_bound (K N : Nat) (hKN : K ≤ N) (s : SchedState)
    (h : Reachable K N s) :
    countHolding s.tasks ≤ K ∧ s.tokens ≤ K ∧
    (s.main ≠ .priming → s.primed = K) ∧
    (s.main = .finished → ∀ t ∈ s.tasks, t = .finished) := by
  obtain ⟨i1, i2, i3, _, i5⟩ := reachable_inv h
  exact ⟨by omega, by omega, i3, i5⟩

/-- Witness for C3 at `K = 1`, `N = 2`, at the initial state. -/
theorem c3_admission_bound_witness :
    countHolding (initState 2).tasks ≤ 1 ∧ (initState 2).tokens ≤ 1 :=
  ⟨(c3_admission_bound 1 2 (by omega) (initState 2)
      Relation.ReflTransGen.refl).1,
   (c3_admission_bound 1 2 (by omega) (initState 2)
      Relation.ReflTransGen.refl).2.1⟩

end MesosSSH
